import Mathlib

/-!
Verification of `pipecat-agent/bot.py`.

Shallow embedding of the parts of the bot the specification talks about:
the resilient Cartesia TTS connection backoff loop, the background audio
mixer, the Akool / HeyGen avatar fallback state machines, the text flush
buffer, the vision snapshot throttle and attach policy, and the
caller-memory seeding of the conversation context.

Bytes are modelled as natural numbers, Python floats as rationals, and
Python strings as Lean strings (or lists of characters), with ASCII-level
models of `str.strip`, `str.lower` and `str.upper`.
-/

/- ## Resilient Cartesia TTS connection backoff
   (`ResilientCartesiaTTSService`, bot.py lines 275-347) -/

/-- Configuration produced by `ResilientCartesiaTTSService.__init__`:
`connect_backoff_initial` is clamped to at least 0.1,
`connect_backoff_max` to at least the initial delay, and
`connect_max_attempts` to at least 1. -/
structure ConnectConfig where
  backoffInitial : ℚ
  backoffMax : ℚ
  maxAttempts : ℕ

/-- `ResilientCartesiaTTSService.__init__` normalisation of the three
backoff parameters. -/
def mkConnectConfig (connect_backoff_initial connect_backoff_max : ℚ)
    (connect_max_attempts : ℕ) : ConnectConfig :=
  let i := max (1/10) connect_backoff_initial
  { backoffInitial := i
    backoffMax := max i connect_backoff_max
    maxAttempts := max 1 connect_max_attempts }

/-- The retry loop of `ResilientCartesiaTTSService._connect_websocket`.
`succeeds k` tells whether the k-th connect attempt (1-based) leaves the
websocket open.  Returns (number of attempts made, the base delays slept
between attempts — the `delay` values before the `uniform(0, delay*0.5)`
jitter is added — and whether the loop returned successfully).
`remaining` is the number of loop iterations still allowed
(`self._connect_max_attempts - attempt` in the source). -/
def connectLoop (succeeds : ℕ → Bool) (backoffMax : ℚ) :
    ℕ → ℕ → ℚ → List ℚ → ℕ × List ℚ × Bool
  | 0, attempt, _, slept => (attempt, slept.reverse, false)
  | remaining + 1, attempt, delay, slept =>
    let a := attempt + 1
    if succeeds a then (a, slept.reverse, true)
    else connectLoop succeeds backoffMax remaining a (min (delay * 2) backoffMax) (delay :: slept)

/-- One execution of `_connect_websocket`'s retry loop from its initial
state (`attempt = 0`, `delay = self._connect_backoff_initial`). -/
def connectRun (cfg : ConnectConfig) (succeeds : ℕ → Bool) : ℕ × List ℚ × Bool :=
  connectLoop succeeds cfg.backoffMax cfg.maxAttempts 0 cfg.backoffInitial []

/-- Value of the `delay` variable in effect during attempt `n+1`
(0-based `n`): starts at the initial delay and is updated by
`delay = min(delay * 2, self._connect_backoff_max)` after every failed
attempt. -/
def backoffDelay (initial backoffMax : ℚ) : ℕ → ℚ
  | 0 => initial
  | n + 1 => min (backoffDelay initial backoffMax n * 2) backoffMax

theorem connectLoop_attempts_le (succeeds : ℕ → Bool) (m : ℚ) :
    ∀ remaining attempt delay slept,
      (connectLoop succeeds m remaining attempt delay slept).1 ≤ attempt + remaining := by
  intro remaining
  induction remaining with
  | zero => intro attempt delay slept; simp [connectLoop]
  | succ r ih =>
    intro attempt delay slept
    simp only [connectLoop]
    by_cases h : succeeds (attempt + 1) = true
    · simp only [h, if_true]; omega
    · simp only [Bool.not_eq_true] at h
      simp only [h, Bool.false_eq_true, if_false]
      have := ih (attempt + 1) (min (delay * 2) m) (delay :: slept)
      omega

theorem backoffDelay_le (i m : ℚ) (him : i ≤ m) : ∀ n, backoffDelay i m n ≤ m := by
  intro n
  cases n with
  | zero => exact him
  | succ k => exact min_le_right _ _

/-- C1: resilient connect — if the first 5 attempts fail and the 6th
succeeds, exactly 6 attempts are made (and the base delays slept between
them are 0.5, 1, 2, 4, 8); with initial delay 0.5 and maximum 8 the
successive values of the backoff delay across the 6 attempts are
0.5, 1, 2, 4, 8, 8; every execution makes at most the configured
(normalised) maximum number of attempts; and the delay never exceeds the
configured maximum. -/
theorem C1_resilient_connect_backoff :
    connectRun (mkConnectConfig (1/2) 8 6) (fun k => k == 6) = (6, [1/2, 1, 2, 4, 8], true)
    ∧ (List.range 6).map (backoffDelay (1/2) 8) = [1/2, 1, 2, 4, 8, 8]
    ∧ (∀ (i m : ℚ) (a : ℕ) (succeeds : ℕ → Bool),
        (connectRun (mkConnectConfig i m a) succeeds).1 ≤ (mkConnectConfig i m a).maxAttempts)
    ∧ (∀ i m : ℚ, i ≤ m → ∀ n, backoffDelay i m n ≤ m) := by
  refine ⟨?_, ?_, ?_, backoffDelay_le⟩
  · norm_num [connectRun, connectLoop, mkConnectConfig, min_def, max_def]
  · norm_num [List.range_succ, backoffDelay, min_def]
  intro i m a succeeds
  have h := connectLoop_attempts_le succeeds (mkConnectConfig i m a).backoffMax
    (mkConnectConfig i m a).maxAttempts 0 (mkConnectConfig i m a).backoffInitial []
  simpa [connectRun] using h

theorem C1_resilient_connect_backoff_witness :
    (connectRun (mkConnectConfig (1/2) 8 6) (fun k => k == 6)).1
        ≤ (mkConnectConfig (1/2) 8 6).maxAttempts
    ∧ backoffDelay (1/2) 8 5 ≤ 8 :=
  ⟨C1_resilient_connect_backoff.2.2.1 (1/2) 8 6 (fun k => k == 6),
   C1_resilient_connect_backoff.2.2.2 (1/2) 8 (by norm_num) 5⟩

/- ## Background audio mixer
   (`BackgroundTTSMixer`, bot.py lines 147-182) -/

/-- State of a `BackgroundTTSMixer`: the cached background PCM16-mono
byte string `self._bg`, the gain `self._gain`, and the read cursor
`self._pos`.  Bytes are modelled as natural numbers. -/
structure MixerState where
  bg : List ℕ
  gain : ℚ
  pos : ℕ

/-- The while-loop inside `BackgroundTTSMixer._next_bg`: repeatedly wrap
the cursor to 0 when it has reached the end of the track, then copy
`min(nbytes - len(out), len(bg) - pos)` bytes and advance the cursor.
The loop is embedded with a fuel argument; since every iteration copies
at least one byte when the track is non-empty, fuel `remaining` always
suffices (the caller guards the empty track). -/
def nextBgLoop (bg : List ℕ) : ℕ → ℕ → ℕ → List ℕ × ℕ
  | 0, _, pos => ([], pos)
  | fuel + 1, remaining, pos =>
    if remaining = 0 then ([], pos)
    else
      let p := if bg.length ≤ pos then 0 else pos
      let t := min remaining (bg.length - p)
      let rest := nextBgLoop bg fuel (remaining - t) (p + t)
      ((bg.drop p).take t ++ rest.1, rest.2)

/-- `BackgroundTTSMixer._next_bg`: returns the next `nbytes` bytes of the
looped background track together with the new cursor.  An empty track (or
`nbytes <= 0`) short-circuits: zeros are returned and the cursor is left
unchanged. -/
def next_bg (s : MixerState) (nbytes : ℕ) : List ℕ × ℕ :=
  if s.bg = [] ∨ nbytes = 0 then
    (if nbytes = 0 then [] else List.replicate nbytes 0, s.pos)
  else nextBgLoop s.bg nbytes nbytes s.pos

/-- Reading `n` bytes cyclically from `bg` starting at cursor `pos`
(the specification's description of the background read). -/
def cyclicRead (bg : List ℕ) (pos n : ℕ) : List ℕ :=
  (List.range n).map fun i => bg.getD ((pos + i) % bg.length) 0

/-- CPython `audioop` saturation: clamp a scaled sample into the signed
16-bit range, rounding towards minus infinity. -/
def fbound16 (q : ℚ) : ℤ := max (-32768) (min 32767 ⌊q⌋)

/-- Little-endian signed 16-bit sample from two bytes. -/
def sampleOfBytes (lo hi : ℕ) : ℤ :=
  let u := lo % 256 + 256 * (hi % 256)
  if u < 32768 then (u : ℤ) else (u : ℤ) - 65536

/-- Little-endian two-byte encoding of a signed 16-bit sample. -/
def bytesOfSample (v : ℤ) : List ℕ :=
  let u := (v % 65536).toNat
  [u % 256, u / 256]

/-- Decode a byte string into signed 16-bit samples, as `audioop` does for
width 2; `none` (an `audioop.error`) when the byte count is not a whole
number of samples. -/
def toSamples16 : List ℕ → Option (List ℤ)
  | [] => some []
  | [_] => none
  | lo :: hi :: rest => (toSamples16 rest).map fun s => sampleOfBytes lo hi :: s

/-- Encode signed 16-bit samples back into a little-endian byte string. -/
def ofSamples16 (s : List ℤ) : List ℕ := (s.map bytesOfSample).flatten

/-- `audioop.mul(fragment, 2, factor)`: scale every 16-bit sample by
`factor` with saturation; errors (`none`) when the fragment is not
sample-aligned. -/
def audioop_mul (b : List ℕ) (factor : ℚ) : Option (List ℕ) :=
  (toSamples16 b).map fun ss => ofSamples16 (ss.map fun v : ℤ => fbound16 ((v : ℚ) * factor))

/-- `audioop.add(a, b, 2)`: add two fragments sample-wise with
saturation; errors (`none`) when the lengths differ or either fragment is
not sample-aligned. -/
def audioop_add (a b : List ℕ) : Option (List ℕ) :=
  if a.length ≠ b.length then none
  else
    match toSamples16 a, toSamples16 b with
    | some sa, some sb =>
      some (ofSamples16 (List.zipWith (fun x y : ℤ => fbound16 ((x : ℚ) + (y : ℚ))) sa sb))
    | _, _ => none

/-- A TTS audio frame as far as the mixer touches it. -/
structure TTSAudioRawFrame where
  audio : List ℕ
  sample_rate : ℕ
  num_channels : ℕ
  num_frames : ℕ
deriving DecidableEq

/-- `BackgroundTTSMixer.process_frame`.  `downstream` and `isTTSAudio`
model the `direction is FrameDirection.DOWNSTREAM` and
`isinstance(frame, TTSAudioRawFrame)` tests.  Mixing happens only when
the gain is positive and the frame has audio; any `audioop` error
(`none`) is caught and the frame passes through unmixed.  Returns the
frame pushed downstream and the new mixer state. -/
def mixer_process_frame (s : MixerState) (frame : TTSAudioRawFrame)
    (downstream isTTSAudio : Bool) : TTSAudioRawFrame × MixerState :=
  if downstream && isTTSAudio then
    if 0 < s.gain ∧ frame.audio ≠ [] then
      let r := next_bg s frame.audio.length
      let s' : MixerState := { s with pos := r.2 }
      match audioop_mul r.1 s.gain with
      | none => (frame, s')
      | some scaled =>
        match audioop_add frame.audio scaled with
        | none => (frame, s')
        | some mixed =>
          ({ frame with
              audio := mixed
              num_frames := mixed.length / (frame.num_channels * 2) }, s')
    else (frame, s)
  else (frame, s)

theorem toSamples16_length : ∀ (b : List ℕ) (s : List ℤ),
    toSamples16 b = some s → b.length = 2 * s.length
  | [], s, h => by
    simp only [toSamples16, Option.some.injEq] at h
    simp [← h]
  | [x], s, h => by simp [toSamples16] at h
  | lo :: hi :: rest, s, h => by
    simp only [toSamples16, Option.map_eq_some'] at h
    obtain ⟨t, ht, hs⟩ := h
    have ih := toSamples16_length rest t ht
    simp [← hs, List.length_cons]
    omega

theorem ofSamples16_length : ∀ s : List ℤ, (ofSamples16 s).length = 2 * s.length
  | [] => rfl
  | v :: rest => by
    have ih := ofSamples16_length rest
    simp only [ofSamples16, List.map_cons, List.flatten_cons, List.length_append,
      bytesOfSample, List.length_cons, List.length_nil] at ih ⊢
    omega

theorem audioop_mul_length (b : List ℕ) (g : ℚ) (out : List ℕ)
    (h : audioop_mul b g = some out) : out.length = b.length := by
  simp only [audioop_mul, Option.map_eq_some'] at h
  obtain ⟨ss, hss, hout⟩ := h
  have h1 := toSamples16_length b ss hss
  rw [← hout, ofSamples16_length, List.length_map]
  omega

theorem audioop_add_length (a b : List ℕ) (out : List ℕ)
    (h : audioop_add a b = some out) : out.length = a.length := by
  unfold audioop_add at h
  split at h
  · exact absurd h (by simp)
  · rename_i hlen
    rw [not_ne_iff] at hlen
    split at h
    · rename_i sa sb hsa hsb
      have ha := toSamples16_length a sa hsa
      have hb := toSamples16_length b sb hsb
      simp only [Option.some.injEq] at h
      rw [← h, ofSamples16_length, List.length_zipWith]
      omega
    · exact absurd h (by simp)

theorem cyclicRead_length (bg : List ℕ) (pos n : ℕ) : (cyclicRead bg pos n).length = n := by
  simp [cyclicRead]

theorem cyclicRead_mod (bg : List ℕ) (pos n : ℕ) :
    cyclicRead bg (pos % bg.length) n = cyclicRead bg pos n := by
  unfold cyclicRead
  have hfun : (fun i => bg.getD ((pos % bg.length + i) % bg.length) 0)
      = fun i => bg.getD ((pos + i) % bg.length) 0 := by
    funext i
    rw [Nat.mod_add_mod]
  rw [hfun]

theorem cyclicRead_split (bg : List ℕ) (pos t n : ℕ) (h : t ≤ n) :
    cyclicRead bg pos n = cyclicRead bg pos t ++ cyclicRead bg (pos + t) (n - t) := by
  unfold cyclicRead
  conv_lhs => rw [show n = t + (n - t) by omega]
  rw [List.range_add, List.map_append, List.map_map]
  congr 1
  have hfun : ((fun i => bg.getD ((pos + i) % bg.length) 0) ∘ fun j => t + j)
      = fun j => bg.getD ((pos + t + j) % bg.length) 0 := by
    funext j
    simp [Function.comp, Nat.add_assoc]
  rw [hfun]

theorem drop_take_eq_cyclicRead (bg : List ℕ) (p t : ℕ) (h : p + t ≤ bg.length) :
    (bg.drop p).take t = cyclicRead bg p t := by
  apply List.ext_getElem
  · simp [cyclicRead]
    omega
  · intro i h1 h2
    have hi : i < t := by
      simpa [cyclicRead] using h2
    have hpi : p + i < bg.length := by omega
    simp only [cyclicRead, List.getElem_map, List.getElem_range]
    rw [List.getElem_take, List.getElem_drop]
    rw [Nat.mod_eq_of_lt hpi, List.getD_eq_getElem bg 0 hpi]

theorem nextBgLoop_spec (bg : List ℕ) (hbg : bg ≠ []) :
    ∀ fuel remaining pos, remaining ≤ fuel → pos ≤ bg.length →
      (nextBgLoop bg fuel remaining pos).1 = cyclicRead bg pos remaining
      ∧ (nextBgLoop bg fuel remaining pos).2 ≤ bg.length
      ∧ (nextBgLoop bg fuel remaining pos).2 % bg.length = (pos + remaining) % bg.length := by
  intro fuel
  induction fuel with
  | zero =>
    intro remaining pos hr hp
    have h0 : remaining = 0 := Nat.le_zero.mp hr
    subst h0
    simp [nextBgLoop, cyclicRead, hp]
  | succ f ih =>
    intro remaining pos hr hp
    by_cases h0 : remaining = 0
    · subst h0
      simp [nextBgLoop, cyclicRead, hp]
    · have hlen : 0 < bg.length := List.length_pos.mpr hbg
      simp only [nextBgLoop, if_neg h0]
      set p := if bg.length ≤ pos then 0 else pos with hpdef
      have hplt : p < bg.length := by
        rw [hpdef]; split <;> omega
      have hpmod : p = pos % bg.length := by
        rw [hpdef]; split
        · rename_i hge
          have hpe : pos = bg.length := le_antisymm hp hge
          rw [hpe, Nat.mod_self]
        · rename_i hlt
          exact (Nat.mod_eq_of_lt (by omega)).symm
      set t := min remaining (bg.length - p) with htdef
      have ht1 : 1 ≤ t := by omega
      have ht2 : t ≤ remaining := min_le_left _ _
      have hptle : p + t ≤ bg.length := by omega
      obtain ⟨ih1, ih2, ih3⟩ := ih (remaining - t) (p + t) (by omega) hptle
      refine ⟨?_, ih2, ?_⟩
      · rw [ih1, ← cyclicRead_mod bg pos remaining, ← hpmod,
          cyclicRead_split bg p t remaining ht2, drop_take_eq_cyclicRead bg p t hptle]
      · rw [ih3, show p + t + (remaining - t) = p + remaining by omega, hpmod,
          Nat.mod_add_mod]

/-- C4: for every speech frame with `N > 0` audio bytes and a non-empty
background track with any reachable cursor (`pos ≤ L`, the invariant the
loop maintains): `_next_bg` returns exactly the next `N` bytes of the
track read cyclically; the frame pushed by `process_frame` keeps its byte
length `N`; the cursor advances by `N` modulo the track length `L`; and a
4-byte track "ABCD" read for 10 bytes yields "ABCDABCDAB". -/
theorem C4_mixer_cyclic_read (s : MixerState) (frame : TTSAudioRawFrame)
    (hbg : s.bg ≠ []) (hpos : s.pos ≤ s.bg.length) (hN : frame.audio ≠ [])
    (hg : 0 < s.gain) :
    (next_bg s frame.audio.length).1 = cyclicRead s.bg s.pos frame.audio.length
    ∧ (mixer_process_frame s frame true true).1.audio.length = frame.audio.length
    ∧ (mixer_process_frame s frame true true).2.pos % s.bg.length
        = (s.pos + frame.audio.length) % s.bg.length
    ∧ (next_bg ⟨[65, 66, 67, 68], 1, 0⟩ 10).1
        = [65, 66, 67, 68, 65, 66, 67, 68, 65, 66] := by
  have hlen0 : frame.audio.length ≠ 0 := by
    simpa [List.length_eq_zero] using hN
  have hnb : next_bg s frame.audio.length
      = nextBgLoop s.bg frame.audio.length frame.audio.length s.pos := by
    simp [next_bg, hbg, hlen0]
  obtain ⟨h1, h2, h3⟩ :=
    nextBgLoop_spec s.bg hbg frame.audio.length frame.audio.length s.pos le_rfl hpos
  have hcond : (0 < s.gain ∧ frame.audio ≠ []) := ⟨hg, hN⟩
  have hpush : (mixer_process_frame s frame true true).1.audio.length = frame.audio.length
      ∧ (mixer_process_frame s frame true true).2.pos
          = (next_bg s frame.audio.length).2 := by
    rcases hmul : audioop_mul (next_bg s frame.audio.length).1 s.gain with _ | scaled
    · simp [mixer_process_frame, hcond, hmul]
    · rcases hadd : audioop_add frame.audio scaled with _ | mixed
      · simp [mixer_process_frame, hcond, hmul, hadd]
      · have hlen := audioop_add_length frame.audio scaled mixed hadd
        simp [mixer_process_frame, hcond, hmul, hadd, hlen]
  refine ⟨by rw [hnb, h1], hpush.1, ?_, by decide⟩
  rw [hpush.2, hnb, h3]

theorem C4_mixer_cyclic_read_witness :
    (next_bg ⟨[1, 2, 3], 1, 0⟩ 4).1 = cyclicRead [1, 2, 3] 0 4
    ∧ (mixer_process_frame ⟨[1, 2, 3], 1, 0⟩ ⟨[0, 0, 0, 0], 16000, 1, 2⟩ true true).1.audio.length = 4
    ∧ (mixer_process_frame ⟨[1, 2, 3], 1, 0⟩ ⟨[0, 0, 0, 0], 16000, 1, 2⟩ true true).2.pos % 3
        = (0 + 4) % 3
    ∧ (next_bg ⟨[65, 66, 67, 68], 1, 0⟩ 10).1
        = [65, 66, 67, 68, 65, 66, 67, 68, 65, 66] :=
  C4_mixer_cyclic_read ⟨[1, 2, 3], 1, 0⟩ ⟨[0, 0, 0, 0], 16000, 1, 2⟩
    (by decide) (by decide) (by decide) (by norm_num)

/-- C5: a gain of 0 makes the mixer a no-op — the frame passes through
with audio, sample count and mixer state (cursor included) unchanged. -/
theorem C5_gain_zero_noop (s : MixerState) (frame : TTSAudioRawFrame)
    (downstream isTTSAudio : Bool) (h : s.gain = 0) :
    mixer_process_frame s frame downstream isTTSAudio = (frame, s) := by
  have hcond : ¬ (0 < s.gain ∧ frame.audio ≠ []) := by
    rw [h]
    rintro ⟨h1, -⟩
    exact lt_irrefl 0 h1
  simp [mixer_process_frame, hcond]

theorem C5_gain_zero_noop_witness :
    mixer_process_frame ⟨[1, 2], 0, 0⟩ ⟨[3, 4], 16000, 1, 1⟩ true true
      = (⟨[3, 4], 16000, 1, 1⟩, ⟨[1, 2], 0, 0⟩) :=
  C5_gain_zero_noop ⟨[1, 2], 0, 0⟩ ⟨[3, 4], 16000, 1, 1⟩ true true rfl

/-- C6: when the conversion/mixing computation for a frame fails (an
`audioop` error, modelled as `none`), the error is caught and that frame
is still pushed downstream with its audio unchanged; `process_frame` is a
total function, so a mixing failure never aborts the pipeline. -/
theorem C6_mix_error_passthrough (s : MixerState) (frame : TTSAudioRawFrame)
    (downstream isTTSAudio : Bool)
    (h : (audioop_mul (next_bg s frame.audio.length).1 s.gain).bind
          (audioop_add frame.audio) = none) :
    (mixer_process_frame s frame downstream isTTSAudio).1 = frame
    ∧ (mixer_process_frame s frame downstream isTTSAudio).1.audio = frame.audio := by
  suffices hs : (mixer_process_frame s frame downstream isTTSAudio).1 = frame from
    ⟨hs, by rw [hs]⟩
  rcases hmul : audioop_mul (next_bg s frame.audio.length).1 s.gain with _ | scaled
  · by_cases hcond : 0 < s.gain ∧ frame.audio ≠ [] <;>
      simp only [mixer_process_frame, hcond, hmul, if_true, if_false] <;>
      split <;> (try rfl) <;> split <;> rfl
  · rw [hmul, Option.some_bind] at h
    by_cases hcond : 0 < s.gain ∧ frame.audio ≠ [] <;>
      simp only [mixer_process_frame, hcond, hmul, h, if_true, if_false] <;>
      split <;> (try rfl) <;> split <;> rfl

theorem C6_mix_error_passthrough_witness :
    (mixer_process_frame ⟨[7], 1, 0⟩ ⟨[5], 16000, 1, 0⟩ true true).1 = ⟨[5], 16000, 1, 0⟩
    ∧ (mixer_process_frame ⟨[7], 1, 0⟩ ⟨[5], 16000, 1, 0⟩ true true).1.audio = [5] :=
  C6_mix_error_passthrough ⟨[7], 1, 0⟩ ⟨[5], 16000, 1, 0⟩ true true (by decide)

/- ## Text flush buffer
   (`AkoolVideoService._split_flushable`, bot.py lines 2540-2550) -/

/-- The sentence-ending characters scanned for by `_split_flushable`. -/
def isSentenceEnd (c : Char) : Bool := c = '.' || c = '!' || c = '?' || c = '\n'

/-- Python `str.rfind` for a single character: the highest index at which
`c` occurs in `s`, or -1 when absent. -/
def rfind : List Char → Char → ℤ
  | [], _ => -1
  | a :: rest, c =>
    if rfind rest c ≥ 0 then rfind rest c + 1
    else if a = c then 0 else -1

/-- `last = max(s.rfind("."), s.rfind("!"), s.rfind("?"), s.rfind("\n"))`
in `_split_flushable`. -/
def lastEnd (s : List Char) : ℤ :=
  max (max (rfind s '.') (rfind s '!')) (max (rfind s '?') (rfind s '\n'))

/-- `AkoolVideoService._split_flushable`: split the buffer into the part
to flush now and the part to retain. -/
def split_flushable (s : List Char) : List Char × List Char :=
  if s = [] then ([], [])
  else if lastEnd s < 0 then
    if 400 < s.length then (s.take 400, s.drop 400)
    else ([], s)
  else (s.take ((lastEnd s).toNat + 1), s.drop ((lastEnd s).toNat + 1))

/-- Modelled from the spec sentence for the flush buffer, with the
force-flush case amended to what the code does: the retained remainder is
the longest suffix containing no sentence-ending character (so the flushed
part ends with the last such character); when no boundary exists and the
buffer is longer than 400 characters, the first 400 characters are flushed
and the rest is retained. -/
def split_flushable_spec (s : List Char) : List Char × List Char :=
  let rest := (s.reverse.takeWhile fun c => !isSentenceEnd c).reverse
  if rest.length < s.length then (s.take (s.length - rest.length), rest)
  else if 400 < s.length then (s.take 400, s.drop 400)
  else ([], s)

theorem rfind_ge_neg_one : ∀ (s : List Char) (c : Char), -1 ≤ rfind s c := by
  intro s c
  induction s with
  | nil => simp [rfind]
  | cons a tl ih =>
    simp only [rfind]
    split_ifs <;> omega

theorem rfind_lt_length : ∀ (s : List Char) (c : Char), rfind s c < s.length := by
  intro s c
  induction s with
  | nil => simp [rfind]
  | cons a tl ih =>
    simp only [rfind, List.length_cons]
    split_ifs <;> push_cast <;> omega

theorem rfind_append_singleton (init : List Char) (a c : Char) :
    rfind (init ++ [a]) c = if a = c then (init.length : ℤ) else rfind init c := by
  induction init with
  | nil =>
    simp only [List.nil_append, rfind, List.length_nil]
    split_ifs <;> omega
  | cons b tl ih =>
    simp only [List.cons_append, rfind, List.length_cons, List.append_eq]
    rw [ih]
    have h1 := rfind_ge_neg_one tl c
    split_ifs <;> push_cast <;> omega

theorem lastEnd_append (init : List Char) (a : Char) :
    lastEnd (init ++ [a]) = if isSentenceEnd a then (init.length : ℤ) else lastEnd init := by
  have h1 := rfind_lt_length init '.'
  have h2 := rfind_lt_length init '!'
  have h3 := rfind_lt_length init '?'
  have h4 := rfind_lt_length init '\n'
  by_cases ha : isSentenceEnd a = true
  · rw [if_pos ha]
    have hcase : a = '.' ∨ a = '!' ∨ a = '?' ∨ a = '\n' := by
      simp only [isSentenceEnd, Bool.or_eq_true, decide_eq_true_eq] at ha
      tauto
    rcases hcase with h | h | h | h <;> subst h <;>
      simp only [lastEnd, rfind_append_singleton] <;> simp <;> omega
  · rw [if_neg ha]
    have hne : a ≠ '.' ∧ a ≠ '!' ∧ a ≠ '?' ∧ a ≠ '\n' := by
      simp only [isSentenceEnd, Bool.or_eq_true, decide_eq_true_eq, not_or] at ha
      tauto
    simp only [lastEnd, rfind_append_singleton, if_neg hne.1, if_neg hne.2.1,
      if_neg hne.2.2.1, if_neg hne.2.2.2]

theorem lastEnd_takeWhile (s : List Char) :
    (lastEnd s < 0 → s.reverse.takeWhile (fun c => !isSentenceEnd c) = s.reverse)
    ∧ (0 ≤ lastEnd s →
        (lastEnd s).toNat + 1 + (s.reverse.takeWhile (fun c => !isSentenceEnd c)).length
          = s.length) := by
  induction s using List.reverseRecOn with
  | nil =>
    refine ⟨fun _ => rfl, fun h => ?_⟩
    simp [lastEnd, rfind] at h
  | append_singleton init a ih =>
    rw [List.reverse_append, List.reverse_singleton, List.singleton_append, lastEnd_append]
    by_cases ha : isSentenceEnd a
    · rw [if_pos ha]
      constructor
      · intro h
        exfalso
        omega
      · intro _
        rw [List.takeWhile_cons_of_neg (by simp [ha])]
        simp
    · rw [if_neg ha]
      rw [List.takeWhile_cons_of_pos (by simp [ha])]
      refine ⟨fun h => ?_, fun h => ?_⟩
      · rw [(ih.1 h)]
      · have := ih.2 h
        simp only [List.length_cons, List.length_append, List.length_singleton, List.length_nil]
        omega

theorem takeWhile_reverse_decomp (s : List Char) (p : Char → Bool) :
    s = (s.reverse.dropWhile p).reverse ++ (s.reverse.takeWhile p).reverse := by
  conv_lhs => rw [← List.reverse_reverse s, ← List.takeWhile_append_dropWhile (p := p) (l := s.reverse)]
  rw [List.reverse_append]

/-- C3 (amended): `_split_flushable` scans for the last sentence-ending
character (period, exclamation mark, question mark, newline); if one is
found it emits everything up to and including it and retains the
(boundary-free) remainder; if none is found and the buffer exceeds 400
characters it flushes the FIRST 400 characters and retains the rest (the
claim's "force-flushes the entire buffer / remainder empty" is what the
counterexample refutes); otherwise it emits nothing. -/
theorem C3_text_flush_amended : ∀ s : List Char, split_flushable s = split_flushable_spec s := by
  intro s
  obtain ⟨h1, h2⟩ := lastEnd_takeWhile s
  by_cases hs : s = []
  · subst hs
    rfl
  · rcases lt_or_le (lastEnd s) 0 with hneg | hpos
    · have ht := h1 hneg
      have hr : (s.reverse.takeWhile fun c => !isSentenceEnd c).reverse = s := by
        rw [ht, List.reverse_reverse]
      have hspec : split_flushable_spec s
          = if 400 < s.length then (s.take 400, s.drop 400) else ([], s) := by
        simp only [split_flushable_spec, hr, lt_self_iff_false, if_false]
      rw [split_flushable, if_neg hs, if_pos hneg, hspec]
    · have hsum := h2 hpos
      have hslen : 0 < s.length := by omega
      set rest := (s.reverse.takeWhile fun c => !isSentenceEnd c).reverse with hrest
      have hrl : rest.length = (s.reverse.takeWhile fun c => !isSentenceEnd c).length := by
        rw [hrest, List.length_reverse]
      have hlt : rest.length < s.length := by omega
      have hidx : (lastEnd s).toNat + 1 = s.length - rest.length := by omega
      have hdecomp := takeWhile_reverse_decomp s (fun c => !isSentenceEnd c)
      rw [← hrest] at hdecomp
      have hAlen : (s.reverse.dropWhile fun c => !isSentenceEnd c).reverse.length
          = s.length - rest.length := by
        have hcong := congrArg List.length hdecomp
        simp only [List.length_append] at hcong
        omega
      have hdrop : s.drop (s.length - rest.length) = rest := by
        have hdl := List.drop_left ((s.reverse.dropWhile fun c => !isSentenceEnd c).reverse) rest
        rw [hAlen] at hdl
        rw [← hdecomp] at hdl
        exact hdl
      have hspec : split_flushable_spec s = (s.take (s.length - rest.length), rest) := by
        simp only [split_flushable_spec, ← hrest]
        rw [if_pos hlt]
      rw [split_flushable, if_neg hs, if_neg (not_lt.mpr hpos), hspec, hidx, hdrop]

theorem rfind_replicate (n : ℕ) (a c : Char) (h : ¬ a = c) :
    rfind (List.replicate n a) c = -1 := by
  induction n with
  | zero => simp [rfind]
  | succ k ih => simp [List.replicate_succ, rfind, ih, h]

theorem drop_replicate_succ (a : Char) : ∀ n, (List.replicate (n + 1) a).drop n = [a]
  | 0 => rfl
  | k + 1 => by
    rw [List.replicate_succ, List.drop_succ_cons]
    exact drop_replicate_succ a k

set_option maxRecDepth 2000 in
/-- C3 counterexample: 401 letters with no sentence boundary — the claim
says the entire buffer is force-flushed (retained remainder empty), but
the code retains the 401st character. -/
theorem C3_text_flush_counterexample :
    (split_flushable (List.replicate 401 'a')).2 = ['a']
    ∧ (split_flushable (List.replicate 401 'a')).2 ≠ [] := by
  have h1 := rfind_replicate 401 'a' '.' (by decide)
  have h2 := rfind_replicate 401 'a' '!' (by decide)
  have h3 := rfind_replicate 401 'a' '?' (by decide)
  have h4 := rfind_replicate 401 'a' '\n' (by decide)
  have hl : lastEnd (List.replicate 401 'a') < 0 := by
    rw [lastEnd, h1, h2, h3, h4]
    norm_num
  have hlen401 : (List.replicate 401 'a').length = 401 := List.length_replicate 401 'a'
  have hne : List.replicate 401 'a' ≠ [] :=
    List.ne_nil_of_length_pos (by rw [hlen401]; norm_num)
  have hlen : 400 < (List.replicate 401 'a').length := by
    rw [hlen401]
    norm_num
  have hsplit : split_flushable (List.replicate 401 'a')
      = ((List.replicate 401 'a').take 400, (List.replicate 401 'a').drop 400) := by
    rw [split_flushable, if_neg hne, if_pos hl, if_pos hlen]
  rw [hsplit]
  have hdrop : (List.replicate 401 'a').drop 400 = ['a'] := drop_replicate_succ 'a' 400
  exact ⟨hdrop, by rw [hdrop]; simp⟩

/- ## Python string helpers (ASCII-level models of str.strip / lower / upper / in) -/

/-- ASCII whitespace stripped by Python `str.strip()`. -/
def isPySpace (c : Char) : Bool :=
  c = ' ' || c = '\t' || c = '\n' || c = '\r' || c = '\x0b' || c = '\x0c'

/-- Drop leading and trailing whitespace from a character list. -/
def stripChars (l : List Char) : List Char :=
  ((l.dropWhile isPySpace).reverse.dropWhile isPySpace).reverse

/-- Python `str.strip()`. -/
def pyStrip (s : String) : String := String.mk (stripChars s.data)

/-- Python `str.lower()` (ASCII). -/
def pyLower (s : String) : String := String.mk (s.data.map Char.toLower)

/-- Python `str.upper()` (ASCII). -/
def pyUpper (s : String) : String := String.mk (s.data.map Char.toUpper)

/-- Python `needle in hay` substring containment. -/
def containsSub (hay needle : String) : Bool :=
  (List.range (hay.data.length + 1)).any fun i => needle.data.isPrefixOf (hay.data.drop i)

/-- Python `s[:n]` (truncation by code points). -/
def strTake (s : String) (n : ℕ) : String := String.mk (s.data.take n)

/- ## Vision attach policy
   (`_should_attach_vision_to_text` and `_handle_aggregation_with_vision`,
   bot.py lines 2710-2802) -/

/-- The fixed keyword set of the `auto` attach policy. -/
def visionKeywords : List String :=
  ["see", "look", "show", "camera", "image", "photo", "picture", "screen", "read",
   "what is this", "what\x27s this", "who is", "what am i", "wearing", "holding",
   "color", "colour", "shirt", "hat", "glasses", "sign", "logo", "text"]

/-- `_should_attach_vision_to_text`: `never` never attaches, `always`
always does, and otherwise (the `auto` heuristic) the stripped lowercased
turn text must be non-empty and contain one of the keywords.  The mode
string defaults to "always" when empty and is stripped and lowercased. -/
def should_attach_vision_to_text (attach_mode text : String) : Bool :=
  if pyLower (pyStrip (if attach_mode = "" then "always" else attach_mode)) = "never" then false
  else if pyLower (pyStrip (if attach_mode = "" then "always" else attach_mode)) = "always" then true
  else if pyLower (pyStrip text) = "" then false
  else visionKeywords.any fun k => containsSub (pyLower (pyStrip text)) k

/-- Outcome of one user-turn aggregation: nothing added (empty text), a
plain text message, or a text+image message. -/
inductive TurnMsg
  | skipped
  | textOnly (t : String)
  | withImage (t : String)
deriving DecidableEq

/-- `_handle_aggregation_with_vision`: strip the aggregation (empty text
adds nothing); without a positive attach decision add a plain text turn;
with one, attach the snapshot only when it is non-empty, fresh enough
(`max_age <= 0` disables the age check) and the JPEG re-encode succeeds
(`encodeOk` models the PIL call, which is outside the repo); otherwise
fall back to a plain text turn. -/
def handle_aggregation_with_vision (attach_mode : String) (max_age_s : ℚ)
    (aggregation : String) (snapImage : List ℕ) (snapTs now : ℚ)
    (encodeOk : Bool) : TurnMsg :=
  if pyStrip aggregation = "" then .skipped
  else if ¬ should_attach_vision_to_text attach_mode (pyStrip aggregation) then
    .textOnly (pyStrip aggregation)
  else if snapImage ≠ [] ∧ (max_age_s ≤ 0 ∨ now - snapTs ≤ max_age_s) ∧ encodeOk then
    .withImage (pyStrip aggregation)
  else .textOnly (pyStrip aggregation)

/-- Whether an outcome carries an attached image. -/
def attachesImage : TurnMsg → Bool
  | .withImage _ => true
  | _ => false

/-- C7: policy "never" never attaches; "always" attaches whenever a fresh
non-empty snapshot exists (and the encode succeeds); "auto" decides by
keyword containment in the stripped lowercased turn text; the handler
attaches exactly when the policy says yes and the snapshot is non-empty,
younger than max-age and encodable; and a snapshot older than a positive
max-age is always rejected, falling back to a text-only turn. -/
theorem C7_vision_attach_policy :
    (∀ t, should_attach_vision_to_text "never" t = false)
    ∧ (∀ t, should_attach_vision_to_text "always" t = true)
    ∧ (∀ t, should_attach_vision_to_text "auto" t = true
        ↔ (pyLower (pyStrip t) ≠ ""
            ∧ (visionKeywords.any fun k => containsSub (pyLower (pyStrip t)) k) = true))
    ∧ (∀ (maxAge : ℚ) (agg : String) (img : List ℕ) (ts now : ℚ) (enc : Bool),
        attachesImage (handle_aggregation_with_vision "never" maxAge agg img ts now enc) = false)
    ∧ (∀ (maxAge : ℚ) (agg : String) (img : List ℕ) (ts now : ℚ) (enc : Bool),
        pyStrip agg ≠ "" → img ≠ [] → enc = true → (maxAge ≤ 0 ∨ now - ts < maxAge) →
        attachesImage (handle_aggregation_with_vision "always" maxAge agg img ts now enc) = true)
    ∧ (∀ (mode : String) (maxAge : ℚ) (agg : String) (img : List ℕ) (ts now : ℚ) (enc : Bool),
        attachesImage (handle_aggregation_with_vision mode maxAge agg img ts now enc) = true
        ↔ (pyStrip agg ≠ ""
            ∧ should_attach_vision_to_text mode (pyStrip agg) = true
            ∧ img ≠ [] ∧ (maxAge ≤ 0 ∨ now - ts ≤ maxAge) ∧ enc = true))
    ∧ (∀ (mode : String) (maxAge : ℚ) (agg : String) (img : List ℕ) (ts now : ℚ) (enc : Bool),
        0 < maxAge → maxAge < now - ts →
        attachesImage (handle_aggregation_with_vision mode maxAge agg img ts now enc) = false
        ∧ (pyStrip agg ≠ "" → handle_aggregation_with_vision mode maxAge agg img ts now enc
            = TurnMsg.textOnly (pyStrip agg))) := by
  have hnever : ∀ t, should_attach_vision_to_text "never" t = false := by
    intro t
    unfold should_attach_vision_to_text
    rw [if_pos (by decide)]
  have halways : ∀ t, should_attach_vision_to_text "always" t = true := by
    intro t
    unfold should_attach_vision_to_text
    rw [if_neg (by decide), if_pos (by decide)]
  have hiff : ∀ (mode : String) (maxAge : ℚ) (agg : String) (img : List ℕ) (ts now : ℚ)
      (enc : Bool),
      attachesImage (handle_aggregation_with_vision mode maxAge agg img ts now enc) = true
      ↔ (pyStrip agg ≠ ""
          ∧ should_attach_vision_to_text mode (pyStrip agg) = true
          ∧ img ≠ [] ∧ (maxAge ≤ 0 ∨ now - ts ≤ maxAge) ∧ enc = true) := by
    intro mode maxAge agg img ts now enc
    unfold handle_aggregation_with_vision
    by_cases h0 : pyStrip agg = ""
    · rw [if_pos h0]
      simp [attachesImage, h0]
    · rw [if_neg h0]
      by_cases hsa : should_attach_vision_to_text mode (pyStrip agg) = true
      · rw [if_neg (not_not_intro hsa)]
        by_cases hc : img ≠ [] ∧ (maxAge ≤ 0 ∨ now - ts ≤ maxAge) ∧ enc = true
        · rw [if_pos hc]
          exact ⟨fun _ => ⟨h0, hsa, hc⟩, fun _ => rfl⟩
        · rw [if_neg hc]
          simp only [attachesImage, Bool.false_eq_true, false_iff]
          rintro ⟨-, -, hc2⟩
          exact hc hc2
      · rw [if_pos hsa]
        simp [attachesImage, hsa]
  refine ⟨hnever, halways, ?_, ?_, ?_, hiff, ?_⟩
  · intro t
    unfold should_attach_vision_to_text
    rw [if_neg (by decide), if_neg (by decide)]
    by_cases he : pyLower (pyStrip t) = ""
    · rw [if_pos he]
      simp [he]
    · rw [if_neg he]
      simp [he]
  · intro maxAge agg img ts now enc
    rcases h : attachesImage (handle_aggregation_with_vision "never" maxAge agg img ts now enc)
    · rfl
    · exfalso
      obtain ⟨-, hsa, -⟩ := (hiff "never" maxAge agg img ts now enc).mp h
      rw [hnever] at hsa
      exact Bool.false_ne_true hsa
  · intro maxAge agg img ts now enc h0 himg henc hage
    refine (hiff "always" maxAge agg img ts now enc).mpr ⟨h0, halways _, himg, ?_, henc⟩
    rcases hage with h | h
    · exact Or.inl h
    · exact Or.inr (le_of_lt h)
  · intro mode maxAge agg img ts now enc hpos hstale
    have hagefalse : ¬ (maxAge ≤ 0 ∨ now - ts ≤ maxAge) := by
      rintro (h | h) <;> linarith
    constructor
    · rcases h : attachesImage (handle_aggregation_with_vision mode maxAge agg img ts now enc)
      · rfl
      · exfalso
        obtain ⟨-, -, -, hage, -⟩ := (hiff mode maxAge agg img ts now enc).mp h
        exact hagefalse hage
    · intro h0
      unfold handle_aggregation_with_vision
      rw [if_neg h0]
      by_cases hsa : should_attach_vision_to_text mode (pyStrip agg) = true
      · rw [if_neg (not_not_intro hsa), if_neg (by rintro ⟨-, hage, -⟩; exact hagefalse hage)]
      · rw [if_pos hsa]

theorem C7_vision_attach_policy_witness :
    should_attach_vision_to_text "never" "do you see this" = false
    ∧ should_attach_vision_to_text "always" "hello" = true
    ∧ (should_attach_vision_to_text "auto" "what color is this" = true
        ↔ (pyLower (pyStrip "what color is this") ≠ ""
            ∧ (visionKeywords.any fun k =>
                containsSub (pyLower (pyStrip "what color is this")) k) = true))
    ∧ attachesImage (handle_aggregation_with_vision "never" 10 "look at me" [1] 0 1 true) = false
    ∧ attachesImage (handle_aggregation_with_vision "always" 10 "hello" [1] 0 1 true) = true
    ∧ attachesImage (handle_aggregation_with_vision "auto" 1 "look at me" [1] 0 5 true) = false :=
  ⟨C7_vision_attach_policy.1 "do you see this",
   C7_vision_attach_policy.2.1 "hello",
   C7_vision_attach_policy.2.2.1 "what color is this",
   C7_vision_attach_policy.2.2.2.1 10 "look at me" [1] 0 1 true,
   C7_vision_attach_policy.2.2.2.2.1 10 "hello" [1] 0 1 true (by decide) (by decide) rfl
     (Or.inr (by norm_num)),
   (C7_vision_attach_policy.2.2.2.2.2.2 "auto" 1 "look at me" [1] 0 5 true (by norm_num)
     (by norm_num)).1⟩

/- ## Caller-memory seeding of the conversation context
   (the `caller_memory` block in `bot`, bot.py lines 1572-1599) -/

/-- One prior-call message as provided by the portal. -/
structure MemMsg where
  role : String
  content : String
deriving DecidableEq

/-- One iteration of the seeding loop: skip entries whose stripped
lowercased role is neither "user" nor "assistant", skip entries whose
stripped content is empty, truncate content longer than 2000 characters,
and append the normalised message. -/
def seedStep (acc : List MemMsg) (m : MemMsg) : List MemMsg :=
  if pyLower (pyStrip m.role) ≠ "user" ∧ pyLower (pyStrip m.role) ≠ "assistant" then acc
  else if pyStrip m.content = "" then acc
  else if 2000 < (pyStrip m.content).length then
    acc ++ [⟨pyLower (pyStrip m.role), strTake (pyStrip m.content) 2000⟩]
  else acc ++ [⟨pyLower (pyStrip m.role), pyStrip m.content⟩]

/-- The caller-memory seeding: `for m in mem[:50]: ...` — the FIRST 50
entries of the provided list are considered. -/
def seedCallerMemory (mem : List MemMsg) : List MemMsg :=
  (mem.take 50).foldl seedStep []

/-- Modelled from the claim's words: the seeding as the claim describes
it, over the MOST RECENT 50 messages (the last 50 of the list, the list
being in conversation order). -/
def seedCallerMemory_claim (mem : List MemMsg) : List MemMsg :=
  (mem.drop (mem.length - 50)).foldl seedStep []

/-- Keep test of the seeding loop, as a predicate. -/
def memKeep (m : MemMsg) : Bool :=
  (pyLower (pyStrip m.role) == "user" || pyLower (pyStrip m.role) == "assistant")
    && !(pyStrip m.content == "")

/-- Normalisation applied to a kept message. -/
def memNormalize (m : MemMsg) : MemMsg :=
  ⟨pyLower (pyStrip m.role), strTake (pyStrip m.content) 2000⟩

theorem strTake_of_le (s : String) (n : ℕ) (h : s.length ≤ n) : strTake s n = s := by
  unfold strTake
  rw [List.take_of_length_le h]

theorem foldl_seedStep (l : List MemMsg) :
    ∀ acc, l.foldl seedStep acc = acc ++ (l.filter memKeep).map memNormalize := by
  induction l with
  | nil => intro acc; simp
  | cons m tl ih =>
    intro acc
    rw [List.foldl_cons, ih]
    by_cases hrole : pyLower (pyStrip m.role) ≠ "user" ∧ pyLower (pyStrip m.role) ≠ "assistant"
    · have hk : memKeep m = false := by
        simp only [memKeep, Bool.and_eq_false_iff, Bool.or_eq_false_iff, beq_eq_false_iff_ne]
        exact Or.inl ⟨hrole.1, hrole.2⟩
      rw [seedStep, if_pos hrole, List.filter_cons_of_neg (by simp [hk])]
    · by_cases hempty : pyStrip m.content = ""
      · have hk : memKeep m = false := by
          simp only [memKeep, Bool.and_eq_false_iff]
          right
          simp [hempty]
        rw [seedStep, if_neg hrole, if_pos hempty, List.filter_cons_of_neg (by simp [hk])]
      · have hk : memKeep m = true := by
          rw [not_and_or, not_not, not_not] at hrole
          simp only [memKeep, Bool.and_eq_true, Bool.or_eq_true, beq_iff_eq]
          exact ⟨hrole.imp id id, by simp [hempty]⟩
        rw [List.filter_cons_of_pos (by rw [hk]), List.map_cons]
        by_cases hlong : 2000 < (pyStrip m.content).length
        · rw [seedStep, if_neg hrole, if_neg hempty, if_pos hlong]
          simp [memNormalize]
        · rw [seedStep, if_neg hrole, if_neg hempty, if_neg hlong]
          have : strTake (pyStrip m.content) 2000 = pyStrip m.content :=
            strTake_of_le _ _ (by omega)
          simp [memNormalize, this]

/-- C9 (amended): the seeded messages are those of the FIRST 50 entries
of the prior-call memory (not the most recent 50), in order, restricted
to (stripped, lowercased) roles "user" and "assistant" with non-empty
stripped content, each content truncated to at most 2000 characters; at
most 50 messages are seeded. -/
theorem C9_memory_seed_amended (mem : List MemMsg) :
    seedCallerMemory mem = ((mem.take 50).filter memKeep).map memNormalize
    ∧ (seedCallerMemory mem).length ≤ 50
    ∧ (∀ m ∈ seedCallerMemory mem,
        (m.role = "user" ∨ m.role = "assistant") ∧ m.content.length ≤ 2000) := by
  have heq : seedCallerMemory mem = ((mem.take 50).filter memKeep).map memNormalize := by
    rw [seedCallerMemory, foldl_seedStep]
    rfl
  refine ⟨heq, ?_, ?_⟩
  · rw [heq, List.length_map]
    calc ((mem.take 50).filter memKeep).length ≤ (mem.take 50).length :=
          List.length_filter_le _ _
      _ ≤ 50 := by simp [List.length_take]
  · intro m hm
    rw [heq] at hm
    obtain ⟨m0, hm0, hnorm⟩ := List.mem_map.mp hm
    have hk : memKeep m0 = true := List.of_mem_filter hm0
    simp only [memKeep, Bool.and_eq_true, Bool.or_eq_true, beq_iff_eq] at hk
    constructor
    · rw [← hnorm]
      exact hk.1.imp id id
    · rw [← hnorm]
      show (strTake (pyStrip m0.content) 2000).length ≤ 2000
      unfold strTake
      show (((pyStrip m0.content).data.take 2000)).length ≤ 2000
      rw [List.length_take]
      omega

theorem C9_memory_seed_amended_witness :
    ((⟨"user", "hi"⟩ : MemMsg).role = "user" ∨ (⟨"user", "hi"⟩ : MemMsg).role = "assistant")
    ∧ (⟨"user", "hi"⟩ : MemMsg).content.length ≤ 2000 :=
  (C9_memory_seed_amended [⟨"User", " hi "⟩]).2.2 ⟨"user", "hi"⟩ (by decide)

/-- The 51-message input showing the seeding takes the first 50 messages,
not the most recent 50. -/
def memCex : List MemMsg := List.replicate 50 ⟨"user", "x"⟩ ++ [⟨"user", "y"⟩]

set_option maxRecDepth 8000 in
/-- C9 counterexample: with 51 valid messages the code seeds the first
50 and drops the newest message "y", while seeding the most recent 50
(as the claim states) would include "y". -/
theorem C9_memory_seed_counterexample :
    seedCallerMemory memCex ≠ seedCallerMemory_claim memCex
    ∧ (⟨"user", "y"⟩ : MemMsg) ∉ seedCallerMemory memCex
    ∧ (⟨"user", "y"⟩ : MemMsg) ∈ seedCallerMemory_claim memCex := by
  refine ⟨by decide, by decide, by decide⟩

/- ## HeyGen avatar fallback controller
   (`ContinuousListeningHeyGenVideoService`, bot.py lines 1713-1854) -/

/-- State of the HeyGen wrapper: the one-way audio-only-fallback flag,
its reason, and whether the best-effort shutdown task was scheduled. -/
structure HGState where
  audio_only_fallback : Bool
  fallback_reason : String
  shutdown_scheduled : Bool
deriving DecidableEq

/-- `_enter_audio_only_fallback`: idempotent — returns immediately when
the flag is already set; otherwise sets the flag, records the stripped
reason and schedules the best-effort shutdown task. -/
def hg_enter_audio_only_fallback (s : HGState) (reason : String) : HGState :=
  if s.audio_only_fallback then s
  else { audio_only_fallback := true, fallback_reason := pyStrip reason
         shutdown_scheduled := true }

/-- The frame kinds `process_frame` distinguishes. -/
inductive HGFrame
  | userStoppedSpeaking
  | ttsAudio (audio : List ℕ)
  | other
deriving DecidableEq

/-- Externally visible effects: delegating a frame to the HeyGen base
class (which sends media to the avatar service), or scheduling the
fallback shutdown task. -/
inductive HGAction
  | delegateToHeyGen (f : HGFrame)
  | scheduleShutdown
deriving DecidableEq

/-- `process_frame` of the HeyGen wrapper.  `sendTaskDone` models
`self._send_task.done()`, `wsConnected` models `self._client._connected`.
Returns (new state, actions, frames pushed directly by the wrapper). -/
def hg_process_frame (s : HGState) (sendTaskDone wsConnected : Bool) (f : HGFrame) :
    HGState × List HGAction × List HGFrame :=
  if s.audio_only_fallback then (s, [], [f])
  else if sendTaskDone then
    (hg_enter_audio_only_fallback s "send task ended unexpectedly", [.scheduleShutdown], [f])
  else
    match f with
    | .userStoppedSpeaking => (s, [], [f])
    | .ttsAudio a =>
      if wsConnected then (s, [.delegateToHeyGen (.ttsAudio a)], [])
      else (hg_enter_audio_only_fallback s "websocket not connected", [.scheduleShutdown], [f])
    | .other => (s, [.delegateToHeyGen .other], [])

/-- All session events that can touch the HeyGen fallback flag:
`process_frame` calls, `start` success/failure, `agent_speak` /
`agent_speak_end` failures and generic errors inside `_send_task_handler`,
and participant media callbacks. -/
inductive HGEvent
  | procFrame (sendTaskDone wsConnected : Bool) (f : HGFrame)
  | startOk
  | startFail (err : String)
  | speakFail (err : String)
  | speakEndFail (err : String)
  | sendLoopError (err : String)
  | participantVideo
  | participantAudio
deriving DecidableEq

/-- State transition of one HeyGen session event. -/
def hg_step (s : HGState) (e : HGEvent) : HGState :=
  match e with
  | .procFrame std ws f => (hg_process_frame s std ws f).1
  | .startOk => s
  | .startFail err => hg_enter_audio_only_fallback s ("start failed: " ++ err)
  | .speakFail err => hg_enter_audio_only_fallback s ("agent_speak failed: " ++ err)
  | .speakEndFail err => hg_enter_audio_only_fallback s ("agent_speak_end failed: " ++ err)
  | .sendLoopError err => hg_enter_audio_only_fallback s ("send loop error: " ++ err)
  | .participantVideo => s
  | .participantAudio => s

/-- A whole sequence of HeyGen session events. -/
def hg_run (s : HGState) (es : List HGEvent) : HGState := es.foldl hg_step s

/- ## Akool avatar controller
   (`AkoolVideoService`, bot.py lines 1898-2675) -/

/-- State of the Akool service as far as the fallback, flush buffer and
vision throttle are concerned (field defaults as in `__init__`). -/
structure AkState where
  disabled : Bool
  disabled_reason : String
  shutdown_scheduled : Bool
  transport_ready : Bool
  pending_text : String
  vision_enabled : Bool
  vision_fps : ℕ
  room : Bool
  vision_last_sent_s : ℚ
deriving DecidableEq

/-- Externally visible Akool effects: session start/stop, a chat message
to the avatar over the data channel, an interrupt command, or a camera
frame captured into the LiveKit vision track. -/
inductive AkAction
  | startSession
  | stopSession
  | sendText (t : String)
  | interrupt
  | captureVisionFrame (w h : ℕ) (image : List ℕ)
deriving DecidableEq

/-- The frame kinds `AkoolVideoService.process_frame` distinguishes. -/
inductive AkFrame
  | start
  | transportReady
  | endOrCancel
  | userImage (format : String) (w h : ℕ) (image : List ℕ)
  | speakingOrInterruption
  | ttsText (t : String)
  | llmText (t : String)
  | llmResponseEnd
  | otherFrame
deriving DecidableEq

/-- Environment outcomes for one `process_frame` call: whether
`_start_session` succeeds, whether `_send_text` raises, the monotonic
time seen by `ingest_user_image`, and whether the LiveKit vision source
is available after `_ensure_vision_track`. -/
structure AkOracle where
  startOk : Bool
  sendOk : Bool
  now : ℚ
  visionSourceReady : Bool
deriving DecidableEq

/-- `_disable_avatar`: idempotent one-way disable under the shutdown
lock; records the stripped reason and schedules `_stop_session`. -/
def ak_disable_avatar (s : AkState) (reason : String) : AkState :=
  if s.disabled then s
  else { s with disabled := true, disabled_reason := pyStrip reason
                shutdown_scheduled := true }

/-- `AkoolVideoService.ingest_user_image`: guards (vision enabled, not
disabled, room joined), FPS throttle (`self._vision_last_sent_s` falsy
disables the throttle), then — after updating the throttle timestamp —
pixel-format / emptiness / payload-size validation, truncation to
`w*h*3` bytes, and capture into the vision source. -/
def ak_ingest_user_image (s : AkState) (format : String) (w h : ℕ) (image : List ℕ)
    (now : ℚ) (sourceReady : Bool) : AkState × List AkAction :=
  if ¬ s.vision_enabled then (s, [])
  else if s.disabled then (s, [])
  else if ¬ s.room then (s, [])
  else if s.vision_last_sent_s ≠ 0
      ∧ now - s.vision_last_sent_s
          < 1 / (if s.vision_fps = 0 then 1 else (s.vision_fps : ℚ)) then (s, [])
  else if pyUpper format ≠ "RGB" ∧ pyUpper format ≠ "RGB24" then
    ({ s with vision_last_sent_s := now }, [])
  else if image = [] then ({ s with vision_last_sent_s := now }, [])
  else if w * h * 3 = 0 then ({ s with vision_last_sent_s := now }, [])
  else if image.length < w * h * 3 then ({ s with vision_last_sent_s := now }, [])
  else if ¬ sourceReady then ({ s with vision_last_sent_s := now }, [])
  else ({ s with vision_last_sent_s := now },
        [.captureVisionFrame w h (image.take (w * h * 3))])

/-- `_send_text`: strips the text and sends nothing when it is empty. -/
def ak_send_text_actions (t : String) : List AkAction :=
  if pyStrip t = "" then [] else [.sendText (pyStrip t)]

/-- `_split_flushable` lifted to `String`. -/
def split_flushable_str (s : String) : String × String :=
  (String.mk (split_flushable s.data).1, String.mk (split_flushable s.data).2)

/-- `AkoolVideoService.process_frame`.  Start / transport-ready /
end-or-cancel frames are handled before the disabled check (as in the
source); every other frame kind first checks `self._disabled` and, when
set, is pushed through untouched.  Returns (new state, actions, frames
pushed). -/
def ak_process_frame (s : AkState) (f : AkFrame) (o : AkOracle) :
    AkState × List AkAction × List AkFrame :=
  match f with
  | .start =>
    if ¬ s.disabled then
      if o.startOk then ({ s with transport_ready := true }, [.startSession], [f])
      else (ak_disable_avatar { s with transport_ready := true } "start failed",
            [.startSession], [f])
    else ({ s with transport_ready := true }, [], [f])
  | .transportReady => ({ s with transport_ready := true }, [], [f])
  | .endOrCancel => (s, [.stopSession], [f])
  | .userImage fmt w h img =>
    if s.disabled then (s, [], [f])
    else
      let r := ak_ingest_user_image s fmt w h img o.now o.visionSourceReady
      (r.1, r.2, [f])
  | .speakingOrInterruption =>
    if s.disabled then (s, [], [f]) else (s, [.interrupt], [f])
  | .ttsText t =>
    if s.disabled then (s, [], [f])
    else if o.sendOk then (s, ak_send_text_actions t, [f])
    else (ak_disable_avatar s "send_text failed", [], [f])
  | .llmText t =>
    if s.disabled then (s, [], [f])
    else
      let r := split_flushable_str (s.pending_text ++ t)
      if pyStrip r.1 ≠ "" then
        if o.sendOk then ({ s with pending_text := r.2 }, ak_send_text_actions r.1, [f])
        else (ak_disable_avatar { s with pending_text := r.2 } "send_text failed", [], [f])
      else ({ s with pending_text := r.2 }, [], [f])
  | .llmResponseEnd =>
    if s.disabled then (s, [], [f])
    else if pyStrip s.pending_text ≠ "" then
      if o.sendOk then
        ({ s with pending_text := "" }, ak_send_text_actions s.pending_text, [f])
      else (ak_disable_avatar { s with pending_text := "" } "send_text failed", [], [f])
    else ({ s with pending_text := "" }, [], [f])
  | .otherFrame => (s, [], [f])

/-- A whole sequence of Akool frames with their environment outcomes. -/
def ak_run (s : AkState) (evs : List (AkFrame × AkOracle)) : AkState :=
  evs.foldl (fun st fo => (ak_process_frame st fo.1 fo.2).1) s

theorem hg_enter_fallback_sets (s : HGState) (r : String) :
    (hg_enter_audio_only_fallback s r).audio_only_fallback = true := by
  unfold hg_enter_audio_only_fallback
  split_ifs with h
  · exact h
  · rfl

theorem hg_step_mono (s : HGState) (e : HGEvent) (h : s.audio_only_fallback = true) :
    (hg_step s e).audio_only_fallback = true := by
  cases e with
  | procFrame std ws f => simp [hg_step, hg_process_frame, h]
  | startOk => exact h
  | startFail err => exact hg_enter_fallback_sets s _
  | speakFail err => exact hg_enter_fallback_sets s _
  | speakEndFail err => exact hg_enter_fallback_sets s _
  | sendLoopError err => exact hg_enter_fallback_sets s _
  | participantVideo => exact h
  | participantAudio => exact h

theorem ak_disable_sets (s : AkState) (r : String) :
    (ak_disable_avatar s r).disabled = true := by
  unfold ak_disable_avatar
  split_ifs with h
  · exact h
  · rfl

theorem ak_step_mono (s : AkState) (f : AkFrame) (o : AkOracle)
    (h : s.disabled = true) : (ak_process_frame s f o).1.disabled = true := by
  cases f <;> simp [ak_process_frame, h, ak_disable_sets]

/-- C2: once an avatar controller is degraded (HeyGen audio-only
fallback, Akool disabled), no sequence of subsequent events — frames
processed with any environment outcomes, send failures, stream
terminations, repeated triggers — ever clears the flag in that session. -/
theorem C2_degraded_is_permanent :
    (∀ (s : HGState) (es : List HGEvent),
        s.audio_only_fallback = true → (hg_run s es).audio_only_fallback = true)
    ∧ (∀ (s : AkState) (evs : List (AkFrame × AkOracle)),
        s.disabled = true → (ak_run s evs).disabled = true) := by
  constructor
  · intro s es
    revert s
    induction es with
    | nil => intro s h; simpa [hg_run] using h
    | cons e tl ih =>
      intro s h
      have h1 := hg_step_mono s e h
      simpa [hg_run, List.foldl_cons] using ih (hg_step s e) h1
  · intro s evs
    revert s
    induction evs with
    | nil => intro s h; simpa [ak_run] using h
    | cons e tl ih =>
      intro s h
      have h1 := ak_step_mono s e.1 e.2 h
      simpa [ak_run, List.foldl_cons] using ih (ak_process_frame s e.1 e.2).1 h1

theorem C2_degraded_is_permanent_witness :
    (hg_run ⟨true, "", true⟩
        [HGEvent.participantVideo, HGEvent.procFrame false true HGFrame.other,
         HGEvent.speakFail "boom"]).audio_only_fallback = true
    ∧ (ak_run ⟨true, "", true, true, "", true, 3, true, 0⟩
        [(AkFrame.ttsText "hi", ⟨true, true, 0, true⟩),
         (AkFrame.start, ⟨true, true, 0, true⟩)]).disabled = true :=
  ⟨C2_degraded_is_permanent.1 ⟨true, "", true⟩ _ rfl,
   C2_degraded_is_permanent.2 ⟨true, "", true, true, "", true, 3, true, 0⟩ _ rfl⟩

/-- C8: once degraded, every processed frame bypasses the avatar logic
and is pushed through unchanged: the HeyGen wrapper pushes the frame with
no actions at all; the Akool service pushes the frame unchanged and emits
no avatar communication (no session start, no chat text, no interrupt, no
vision capture) — the only action it can still emit is the `stopSession`
teardown on an End/Cancel frame, which it performs degraded or not. -/
theorem C8_degraded_bypasses_avatar :
    (∀ (s : HGState) (sendTaskDone wsConnected : Bool) (f : HGFrame),
        s.audio_only_fallback = true →
        hg_process_frame s sendTaskDone wsConnected f = (s, [], [f]))
    ∧ (∀ (s : AkState) (f : AkFrame) (o : AkOracle), s.disabled = true →
        (ak_process_frame s f o).2.2 = [f]
        ∧ ∀ a ∈ (ak_process_frame s f o).2.1, a = AkAction.stopSession) := by
  constructor
  · intro s std ws f h
    unfold hg_process_frame
    rw [if_pos h]
  · intro s f o h
    cases f <;> simp [ak_process_frame, h]

theorem C8_degraded_bypasses_avatar_witness :
    hg_process_frame ⟨true, "", true⟩ false true (HGFrame.ttsAudio [1])
      = (⟨true, "", true⟩, [], [HGFrame.ttsAudio [1]])
    ∧ ((ak_process_frame ⟨true, "", true, true, "", true, 3, true, 0⟩
          (AkFrame.llmText "hello.") ⟨true, true, 0, true⟩).2.2
        = [AkFrame.llmText "hello."]
      ∧ ∀ a ∈ (ak_process_frame ⟨true, "", true, true, "", true, 3, true, 0⟩
          (AkFrame.llmText "hello.") ⟨true, true, 0, true⟩).2.1,
          a = AkAction.stopSession) :=
  ⟨C8_degraded_bypasses_avatar.1 ⟨true, "", true⟩ false true (HGFrame.ttsAudio [1]) rfl,
   C8_degraded_bypasses_avatar.2 ⟨true, "", true, true, "", true, 3, true, 0⟩
     (AkFrame.llmText "hello.") ⟨true, true, 0, true⟩ rfl⟩

theorem ak_ingest_throttled (s : AkState) (format : String) (w h : ℕ) (image : List ℕ)
    (now : ℚ) (src : Bool)
    (hv : s.vision_enabled = true) (hd : s.disabled = false) (hr : s.room = true)
    (hth : s.vision_last_sent_s ≠ 0
      ∧ now - s.vision_last_sent_s
          < 1 / (if s.vision_fps = 0 then 1 else (s.vision_fps : ℚ))) :
    ak_ingest_user_image s format w h image now src = (s, []) := by
  unfold ak_ingest_user_image
  rw [if_neg (by simp [hv]), if_neg (by simp [hd]), if_neg (by simp [hr]), if_pos hth]

/-- C10: `ingest_user_image` updates the FPS-throttle timestamp before
validating the frame.  A frame that passes the throttle but is then
rejected (non-RGB pixel format, empty payload, zero expected size, or a
payload shorter than `w*h*3`) produces no capture, yet still sets
`_vision_last_sent_s` to its arrival time; consequently any frame —
valid or not — arriving strictly within `1/fps` seconds afterwards is
dropped without any state change or capture. -/
theorem C10_throttle_counts_rejected_frames
    (s : AkState) (fmt : String) (w h : ℕ) (img : List ℕ) (now : ℚ) (src : Bool)
    (hv : s.vision_enabled = true) (hd : s.disabled = false) (hr : s.room = true)
    (hfps : 0 < s.vision_fps)
    (hth : s.vision_last_sent_s = 0
      ∨ 1 / (s.vision_fps : ℚ) ≤ now - s.vision_last_sent_s)
    (hrej : (pyUpper fmt ≠ "RGB" ∧ pyUpper fmt ≠ "RGB24") ∨ img = []
      ∨ w * h * 3 = 0 ∨ img.length < w * h * 3) :
    (ak_ingest_user_image s fmt w h img now src).2 = []
    ∧ (ak_ingest_user_image s fmt w h img now src).1.vision_last_sent_s = now
    ∧ (now ≠ 0 → ∀ (fmt2 : String) (w2 h2 : ℕ) (img2 : List ℕ) (now2 : ℚ) (src2 : Bool),
        now2 - now < 1 / (s.vision_fps : ℚ) →
        ak_ingest_user_image (ak_ingest_user_image s fmt w h img now src).1
            fmt2 w2 h2 img2 now2 src2
          = ((ak_ingest_user_image s fmt w h img now src).1, [])) := by
  have hmi : (if s.vision_fps = 0 then 1 else (s.vision_fps : ℚ)) = (s.vision_fps : ℚ) := by
    rw [if_neg (by omega)]
  have hthr : ¬ (s.vision_last_sent_s ≠ 0
      ∧ now - s.vision_last_sent_s
          < 1 / (if s.vision_fps = 0 then 1 else (s.vision_fps : ℚ))) := by
    rw [hmi]
    rcases hth with h1 | h1
    · rintro ⟨h2, -⟩
      exact h2 h1
    · rintro ⟨-, h2⟩
      linarith
  have hres : ak_ingest_user_image s fmt w h img now src
      = ({ s with vision_last_sent_s := now }, []) := by
    unfold ak_ingest_user_image
    rw [if_neg (by simp [hv]), if_neg (by simp [hd]), if_neg (by simp [hr]), if_neg hthr]
    split_ifs with h1 h2 h3 h4 h5
    any_goals rfl
    exfalso
    rcases hrej with h | h | h | h
    · exact h1 h
    · exact h2 h
    · exact h3 h
    · exact h4 h
  refine ⟨by rw [hres], by rw [hres], ?_⟩
  intro hnow0 fmt2 w2 h2 img2 now2 src2 hlt
  rw [hres]
  exact ak_ingest_throttled { s with vision_last_sent_s := now } fmt2 w2 h2 img2 now2 src2
    hv hd hr ⟨hnow0, by rw [show ({ s with vision_last_sent_s := now } : AkState).vision_fps
      = s.vision_fps from rfl, hmi]; simpa using hlt⟩

theorem C10_throttle_counts_rejected_frames_witness :
    (ak_ingest_user_image ⟨false, "", false, true, "", true, 3, true, 0⟩
        "YUV" 2 2 [1, 2, 3] 10 true).2 = []
    ∧ (ak_ingest_user_image ⟨false, "", false, true, "", true, 3, true, 0⟩
        "YUV" 2 2 [1, 2, 3] 10 true).1.vision_last_sent_s = 10
    ∧ ak_ingest_user_image
        (ak_ingest_user_image ⟨false, "", false, true, "", true, 3, true, 0⟩
          "YUV" 2 2 [1, 2, 3] 10 true).1
        "RGB" 2 2 (List.replicate 12 0) (101/10) true
      = ((ak_ingest_user_image ⟨false, "", false, true, "", true, 3, true, 0⟩
          "YUV" 2 2 [1, 2, 3] 10 true).1, []) := by
  have h := C10_throttle_counts_rejected_frames
    ⟨false, "", false, true, "", true, 3, true, 0⟩ "YUV" 2 2 [1, 2, 3] 10 true
    rfl rfl rfl (by norm_num) (Or.inl rfl)
    (Or.inr (Or.inr (Or.inr (by norm_num))))
  exact ⟨h.1, h.2.1,
    h.2.2 (by norm_num) "RGB" 2 2 (List.replicate 12 0) (101/10) true (by norm_num)⟩
